import Mathlib

/-!
Shallow embedding of the nginx 1.19.3 buffer-chain core
(`src/core/ngx_buf.c`) and segmented list (`src/core/ngx_list.c`).

Pointers and byte addresses are modelled as integers; chains (singly
linked, null-terminated lists of `ngx_chain_t` links) are modelled as
Lean lists, where the `next` pointers are the list structure itself.
In-place mutation of a buffer is modelled by producing the updated
buffer value at the same position.
-/

/-- Model of `ngx_buf_t` (declared in `ngx_buf.h`): cursor fields are
byte addresses/offsets as integers, flags are booleans, the ownership
tag (an opaque pointer compared only for equality) and the file
descriptor of `b->file->fd` are integers. -/
structure NgxBuf where
  start : Int
  pos : Int
  last : Int
  endp : Int
  file_pos : Int
  file_last : Int
  temporary : Bool
  memory : Bool
  mmap : Bool
  in_file : Bool
  flush : Bool
  sync : Bool
  last_buf : Bool
  fd : Int
  tag : Int
  deriving DecidableEq, Repr

/-- Modelled from the spec: `ngx_buf_in_memory` (macro in `ngx_buf.h`,
not under src/) — a buffer is memory-backed when it is temporary,
read-only memory, or memory-mapped. -/
def ngx_buf_in_memory (b : NgxBuf) : Bool :=
  b.temporary || b.memory || b.mmap

/-- Modelled from the spec: `ngx_buf_size` (macro in `ngx_buf.h`, not
under src/) — the remaining size of a buffer: the memory remaining
`last - pos` when memory-backed, otherwise the file remaining
`file_last - file_pos` (the spec notes a buffer backed by both holds
the same logical bytes in two forms). -/
def ngx_buf_size (b : NgxBuf) : Int :=
  if ngx_buf_in_memory b then b.last - b.pos else b.file_last - b.file_pos

/-- Modelled from the spec: `ngx_buf_special` (macro in `ngx_buf.h`,
not under src/) — a special buffer carries only flags (flush,
last-buffer or sync marker) and is neither memory- nor file-backed. -/
def ngx_buf_special (b : NgxBuf) : Bool :=
  (b.flush || b.last_buf || b.sync) && !(ngx_buf_in_memory b) && !b.in_file

/-- Resetting the memory cursors of a drained matching buffer:
`cl->buf->pos = cl->buf->start; cl->buf->last = cl->buf->start;`
(ngx_buf.c, `ngx_chain_update_chains`). File cursors untouched. -/
def resetBuf (b : NgxBuf) : NgxBuf :=
  { b with pos := b.start, last := b.start }

/-- Loop of `ngx_chain_update_chains` (ngx_buf.c): state is
(pool free-link list `pool->chain`, the consumer `free` list, the
`busy` list).  `pchain` holds the buffers referenced by links returned
to the pool by `ngx_free_chain` (modelled from the spec: `ngx_free_chain`
is a macro in `ngx_buf.h`, not under src/, pushing the link onto the
pool-scoped chain-link free list while leaving its buffer untouched). -/
def updateChainsLoop (pchain free busy : List NgxBuf) (tag : Int) :
    List NgxBuf × List NgxBuf × List NgxBuf :=
  match busy with
  | [] => (pchain, free, [])
  | cl :: rest =>
    if ngx_buf_size cl ≠ 0 then
      (pchain, free, cl :: rest)
    else if cl.tag ≠ tag then
      updateChainsLoop (cl :: pchain) free rest tag
    else
      updateChainsLoop pchain (resetBuf cl :: free) rest tag

/-- Model of `ngx_chain_update_chains` (ngx_buf.c): appends `out` to
the tail of `busy`, clears `out`, then drains the head of `busy` as in
the source loop.  Result: (pool chain-link free list, `free`, `busy`,
`out`). -/
def ngx_chain_update_chains (pchain free busy out : List NgxBuf) (tag : Int) :
    List NgxBuf × List NgxBuf × List NgxBuf × List NgxBuf :=
  let r := updateChainsLoop pchain free (busy ++ out) tag
  (r.1, r.2.1, r.2.2, [])

/-- Full drain of a buffer in `ngx_chain_update_sent` (ngx_buf.c):
`pos = last` when memory-backed, `file_pos = file_last` when
file-backed. -/
def drainBuf (b : NgxBuf) : NgxBuf :=
  { b with pos := if ngx_buf_in_memory b then b.last else b.pos,
           file_pos := if b.in_file then b.file_last else b.file_pos }

/-- Partial advance of a buffer in `ngx_chain_update_sent` (ngx_buf.c):
`pos += sent` when memory-backed, `file_pos += sent` when file-backed. -/
def advanceBuf (b : NgxBuf) (sent : Int) : NgxBuf :=
  { b with pos := if ngx_buf_in_memory b then b.pos + sent else b.pos,
           file_pos := if b.in_file then b.file_pos + sent else b.file_pos }

/-- Model of `ngx_chain_update_sent` (ngx_buf.c).  The C function
mutates buffers in place and returns the advanced head pointer `in`;
here the result is the pair (links walked past, with their in-place
cursor updates applied, in original order; remaining chain from the
returned link on).  The whole chain after the call is the
concatenation of the two components. -/
def ngx_chain_update_sent (l : List NgxBuf) (sent : Int) :
    List NgxBuf × List NgxBuf :=
  match l with
  | [] => ([], [])
  | b :: rest =>
    if ngx_buf_special b then
      let r := ngx_chain_update_sent rest sent
      (b :: r.1, r.2)
    else if sent = 0 then
      ([], b :: rest)
    else if sent ≥ ngx_buf_size b then
      let r := ngx_chain_update_sent rest (sent - ngx_buf_size b)
      (drainBuf b :: r.1, r.2)
    else
      ([], advanceBuf b sent :: rest)

/-- Clearing the low bits of `x` with the mask `~ (ps - 1)`: for `ps` a
power of two (as `ngx_pagesize` always is) the bitwise form in the
source equals subtracting the Euclidean remainder. -/
def alignMask (x ps : Int) : Int :=
  x - x % ps

/-- Loop of `ngx_chain_coalesce_file` (ngx_buf.c): `fd` is the
descriptor taken from the head buffer, `total` the bytes accumulated
so far, `ps` the environment page size `ngx_pagesize`.  Returns the
accumulated total and the remaining chain `*in`. -/
def coalesceLoop (ps limit fd : Int) (l : List NgxBuf) (total : Int) :
    Int × List NgxBuf :=
  match l with
  | [] => (total, [])
  | cl :: rest =>
    let size := cl.file_last - cl.file_pos
    if size > limit - total then
      let size := limit - total
      let aligned := alignMask (cl.file_pos + size + ps - 1) ps
      let size := if aligned ≤ cl.file_last then aligned - cl.file_pos else size
      (total + size, cl :: rest)
    else
      let total := total + size
      let fprev := cl.file_pos + size
      match rest with
      | [] => (total, [])
      | cl2 :: _ =>
        if cl2.in_file = true ∧ total < limit ∧ fd = cl2.fd ∧ fprev = cl2.file_pos
        then coalesceLoop ps limit fd rest total
        else (total, rest)

/-- Model of `ngx_chain_coalesce_file` (ngx_buf.c).  The page size is
passed as the parameter `ps` (the source reads the environment
constant `ngx_pagesize`).  The source dereferences the head
unconditionally; an empty chain is outside its precondition and is
mapped to `(0, [])`. -/
def ngx_chain_coalesce_file (ps : Int) (l : List NgxBuf) (limit : Int) :
    Int × List NgxBuf :=
  match l with
  | [] => (0, [])
  | cl :: rest => coalesceLoop ps limit cl.fd (cl :: rest) 0

/-- Model of an `ngx_chain_t` link as seen by the link allocator: only
its buffer pointer matters here (a `next` pointer of a detached link
is whatever the caller sets it to; within a chain it is the list
structure).  `buf` is an optional buffer address. -/
structure ChainLink where
  buf : Option Nat
  deriving DecidableEq, Repr

/-- Modelled from the spec: the pool collaborator for chain-link
allocation (`ngx_pool_t` and `ngx_palloc` are not under src/).
`chain` is the pool-scoped chain-link free list `pool->chain`;
`arena` lists the contents of the successive raw allocations
`ngx_palloc` can still satisfy (uninitialized memory, hence arbitrary
link contents); an empty `arena` is an exhausted arena, on which
`ngx_palloc` fails.  -/
structure LinkPool where
  chain : List ChainLink
  arena : List ChainLink
  deriving DecidableEq, Repr

/-- Model of `ngx_alloc_chain_link` (ngx_buf.c): pop the head of
`pool->chain` if non-empty, else allocate from the arena; the returned
link's fields are whatever the popped or fresh memory held (the source
clears nothing).  Returns `none` exactly when `ngx_palloc` fails. -/
def ngx_alloc_chain_link (p : LinkPool) : Option ChainLink × LinkPool :=
  match p.chain with
  | cl :: rest => (some cl, { p with chain := rest })
  | [] =>
    match p.arena with
    | cl :: rest => (some cl, { p with arena := rest })
    | [] => (none, p)

/-- Loop of `ngx_chain_add_copy` (ngx_buf.c) over the source chain
`src` (each element a buffer pointer `in->buf`): allocates one link
per element, overwrites its `buf` with the source link's, and appends.
Returns (pool after, appended buffer-pointer sequence, success flag);
on allocation failure the appended sequence stops at the links already
added and `*ll = NULL` terminates it. -/
def addCopyLoop (p : LinkPool) (src : List (Option Nat)) :
    LinkPool × List (Option Nat) × Bool :=
  match src with
  | [] => (p, [], true)
  | b :: rest =>
    match ngx_alloc_chain_link p with
    | (none, p') => (p', [], false)
    | (some _, p') =>
      let r := addCopyLoop p' rest
      (r.1, b :: r.2.1, r.2.2)

/-- Model of `ngx_chain_add_copy` (ngx_buf.c): walks to the tail of
the destination and appends freshly allocated links carrying the
source links' buffer pointers.  Result: (pool after, destination
chain after the call — always null-terminated, the source never
modified —, `true` for NGX_OK / `false` for NGX_ERROR). -/
def ngx_chain_add_copy (p : LinkPool) (dst src : List (Option Nat)) :
    LinkPool × List (Option Nat) × Bool :=
  let r := addCopyLoop p src
  (r.1, dst ++ r.2.1, r.2.2)

/-- The all-zero `ngx_buf_t` produced by `ngx_calloc_buf`
(zero-initialized allocation). -/
def zeroBuf : NgxBuf :=
  { start := 0, pos := 0, last := 0, endp := 0, file_pos := 0, file_last := 0,
    temporary := false, memory := false, mmap := false, in_file := false,
    flush := false, sync := false, last_buf := false, fd := 0, tag := 0 }

/-- A chain link as handled by `ngx_chain_get_free_buf`: carries the
buffer value it references (`none` for a link with no buffer
assigned, e.g. stale pool memory). -/
structure BufLink where
  buf : Option NgxBuf
  deriving DecidableEq, Repr

/-- Modelled from the spec: pool state for `ngx_chain_get_free_buf`
(`ngx_pool_t`, `ngx_palloc`, `ngx_calloc_buf` are not under src/).
`chain`/`linkArena` are as in `LinkPool` but with buffer-valued
links; `bufArena` counts the zero-initialized buffer allocations
`ngx_calloc_buf` can still satisfy before the arena is exhausted. -/
structure BufPool where
  chain : List BufLink
  linkArena : List BufLink
  bufArena : Nat
  deriving DecidableEq, Repr

/-- The `ngx_alloc_chain_link` step inside `ngx_chain_get_free_buf`,
over buffer-valued links. -/
def allocBufLink (p : BufPool) : Option BufLink × BufPool :=
  match p.chain with
  | cl :: rest => (some cl, { p with chain := rest })
  | [] =>
    match p.linkArena with
    | cl :: rest => (some cl, { p with linkArena := rest })
    | [] => (none, p)

/-- Model of `ngx_calloc_buf` (macro over `ngx_pcalloc`, not under
src/; modelled from the spec's arena collaborator): a zero-initialized
buffer, failing exactly on arena exhaustion. -/
def ngx_calloc_buf (p : BufPool) : Option NgxBuf × BufPool :=
  match p.bufArena with
  | 0 => (none, p)
  | n + 1 => (some zeroBuf, { p with bufArena := n })

/-- Model of `ngx_chain_get_free_buf` (ngx_buf.c): pop the head of
`*free` (its `next` cleared to null — here, returned as a detached
single link) leaving its buffer exactly as stored; otherwise allocate
a link and a zero-initialized buffer, clearing the link's successor.
Result: (returned link or `none` on failure, pool after, `*free`
after). -/
def ngx_chain_get_free_buf (p : BufPool) (free : List BufLink) :
    Option BufLink × BufPool × List BufLink :=
  match free with
  | cl :: rest => (some cl, p, rest)
  | [] =>
    match allocBufLink p with
    | (none, p') => (none, p', [])
    | (some cl, p') =>
      match ngx_calloc_buf p' with
      | (none, p'') => (none, p'', [])
      | (some b, p'') => (some { cl with buf := some b }, p'', [])

/-- Model of `ngx_list_t` (ngx_list.h/ngx_list.c): the sequence of
parts, each part the list of elements written into it so far (its
used-count `nelts` is the length); `nalloc` is the fixed per-part
capacity.  The `l->last` tail pointer is the last element of `parts`;
the null-terminated part chain is the list structure. -/
structure NgxList (α : Type) where
  parts : List (List α)
  nalloc : Nat
  deriving DecidableEq, Repr

/-- Modelled from the spec: `ngx_list_init` (inline in `ngx_list.h`,
not under src/) — one part, used-count zero, capacity `n` fixed at
creation. -/
def ngx_list_init (α : Type) (n : Nat) : NgxList α :=
  { parts := [[]], nalloc := n }

/-- Model of `ngx_list_push` (ngx_list.c), fused with the caller's
write of `x` into the returned slot (the slot is `elts + size * nelts`,
the next free index of the tail part): if the tail part is full,
link a new part (used-count starting at zero) after the tail and
advance the tail before writing.  The `ngx_palloc` failure path
returns null with the list unchanged and is not taken in this model
of an unexhausted arena. -/
def ngx_list_push {α : Type} (l : NgxList α) (x : α) : NgxList α :=
  if (l.parts.getLastD []).length = l.nalloc then
    { l with parts := l.parts ++ [[x]] }
  else
    { l with parts := l.parts.dropLast ++ [l.parts.getLastD [] ++ [x]] }

/-- Iteration order of a segmented list: parts in link order, elements
within a part in index order. -/
def NgxList.toFlat {α : Type} (l : NgxList α) : List α :=
  l.parts.flatten

/-- A sequence of pushes starting from a given list state. -/
def pushAll {α : Type} (l : NgxList α) (xs : List α) : NgxList α :=
  xs.foldl ngx_list_push l

/-- Example buffer: memory-backed (temporary) with the given start,
pos, last, end addresses and tag. -/
def memBuf (s p l e t : Int) : NgxBuf :=
  { zeroBuf with start := s, pos := p, last := l, endp := e,
                 temporary := true, tag := t }

/-- Example buffer: file-backed with the given on-disk range and
descriptor. -/
def fileBuf (fp fl fd : Int) : NgxBuf :=
  { zeroBuf with in_file := true, file_pos := fp, file_last := fl, fd := fd }

/-- Example buffer: a special flush marker (no memory, no file
backing). -/
def flushBuf : NgxBuf :=
  { zeroBuf with flush := true }

/-- Invariant of a segmented list with per-part capacity `n`: the part
chain is non-empty (the tail pointer is its last part) and no part
holds more than `n` elements. -/
def listInv {α : Type} (n : Nat) (l : NgxList α) : Prop :=
  l.nalloc = n ∧ l.parts ≠ [] ∧ ∀ q ∈ l.parts, q.length ≤ n

lemma alignMask_le (x ps : Int) (h : 0 < ps) : alignMask x ps ≤ x :=
  sub_le_self _ (Int.emod_nonneg x h.ne')

lemma le_alignMask (x ps : Int) (h : 0 < ps) : x - (ps - 1) ≤ alignMask x ps := by
  have := Int.emod_lt_of_pos x h
  unfold alignMask
  linarith

lemma updateChainsLoop_matched (tag : Int) (d : List NgxBuf) :
    ∀ pchain free r : List NgxBuf,
      (∀ b ∈ d, ngx_buf_size b = 0 ∧ b.tag = tag) →
      (r = [] ∨ ∃ b r', r = b :: r' ∧ ngx_buf_size b ≠ 0) →
      updateChainsLoop pchain free (d ++ r) tag
        = (pchain, (d.map resetBuf).reverse ++ free, r) := by
  induction d with
  | nil =>
    intro pchain free r _ hr
    rcases hr with rfl | ⟨b, r', rfl, hb⟩
    · simp [updateChainsLoop]
    · simp [updateChainsLoop, hb]
  | cons b d ih =>
    intro pchain free r hd hr
    have hb := hd b (by simp)
    rw [List.cons_append, updateChainsLoop]
    rw [if_neg (by simp [hb.1]), if_neg (by simp [hb.2])]
    rw [ih pchain (resetBuf b :: free) r (fun c hc => hd c (by simp [hc])) hr]
    simp [List.append_assoc]

/-- C1: Fold-and-recycle appends `out` to the tail of `busy`, clears
`out`, and drains the head of `busy`: every drained head whose tag
equals the given tag has its memory cursors reset to
`pos = last = start` with file cursors untouched, and its link is
pushed onto the head of `free`, so links reclaimed in one call appear
in `free` in reverse of their drain order; the loop terminates as soon
as `busy` is empty or its head buffer is not fully drained, and that
head and every later link remain in `busy` in their original order
with unmodified buffers. -/
theorem chain_update_chains_recycles_matched
    (pchain free busy out d r : List NgxBuf) (tag : Int)
    (hsplit : busy ++ out = d ++ r)
    (hd : ∀ b ∈ d, ngx_buf_size b = 0 ∧ b.tag = tag)
    (hr : r = [] ∨ ∃ b r', r = b :: r' ∧ ngx_buf_size b ≠ 0) :
    ngx_chain_update_chains pchain free busy out tag
      = (pchain, (d.map resetBuf).reverse ++ free, r, []) ∧
    ∀ b : NgxBuf, (resetBuf b).pos = b.start ∧ (resetBuf b).last = b.start ∧
      (resetBuf b).file_pos = b.file_pos ∧
      (resetBuf b).file_last = b.file_last := by
  refine ⟨?_, fun b => ⟨rfl, rfl, rfl, rfl⟩⟩
  unfold ngx_chain_update_chains
  rw [hsplit, updateChainsLoop_matched tag d pchain free r hd hr]

/-- Witness for C1: the spec's example — three drained tag-7 buffers
in `busy`, empty `out` — yields `free = [C, B, A]` (reset, in reverse
drain order) and empty `busy`. -/
theorem chain_update_chains_recycles_matched_witness :
    ngx_chain_update_chains []
        [] [memBuf 0 5 5 10 7, memBuf 100 105 105 110 7, memBuf 200 205 205 210 7] [] 7
      = ([], [resetBuf (memBuf 200 205 205 210 7), resetBuf (memBuf 100 105 105 110 7),
              resetBuf (memBuf 0 5 5 10 7)], [], []) :=
  (chain_update_chains_recycles_matched [] []
      [memBuf 0 5 5 10 7, memBuf 100 105 105 110 7, memBuf 200 205 205 210 7] []
      [memBuf 0 5 5 10 7, memBuf 100 105 105 110 7, memBuf 200 205 205 210 7] [] 7
      rfl (by decide) (Or.inl rfl)).1

/-- C4: when the drained head of `busy` carries a tag different from
the given tag, its link is removed from `busy` and pushed onto the
pool-scoped chain-link free list with its buffer left untouched, and
processing continues with the next head; in the spec's example the
mismatching middle buffer never appears in `free`. -/
theorem chain_update_chains_mismatch_abandons
    (pchain free rest : List NgxBuf) (b : NgxBuf) (tag : Int)
    (hdrained : ngx_buf_size b = 0) (hmm : b.tag ≠ tag) :
    updateChainsLoop pchain free (b :: rest) tag
      = updateChainsLoop (b :: pchain) free rest tag ∧
    ngx_chain_update_chains []
        [] [memBuf 0 5 5 10 7, memBuf 100 105 105 110 9, memBuf 200 205 205 210 7] [] 7
      = ([memBuf 100 105 105 110 9],
         [resetBuf (memBuf 200 205 205 210 7), resetBuf (memBuf 0 5 5 10 7)], [], []) ∧
    memBuf 100 105 105 110 9
      ∉ [resetBuf (memBuf 200 205 205 210 7), resetBuf (memBuf 0 5 5 10 7)] := by
  refine ⟨?_, by decide, by decide⟩
  rw [updateChainsLoop, if_neg (by simp [hdrained]), if_pos hmm]

/-- Witness for C4: a drained buffer with tag 9 at the head of `busy`,
called with tag 7, is moved to the pool chain-link free list
unmodified. -/
theorem chain_update_chains_mismatch_abandons_witness :
    updateChainsLoop [] [] [memBuf 100 105 105 110 9] 7
      = updateChainsLoop [memBuf 100 105 105 110 9] [] [] 7 :=
  (chain_update_chains_mismatch_abandons [] [] [] (memBuf 100 105 105 110 9) 7
    (by decide) (by decide)).1

/-- C3: Advance(chain, sent) skips special buffers without touching
`sent`; stops at a non-special buffer when `sent = 0`, returning that
link; fully drains a buffer whose remaining size is at most `sent`
(memory cursor to `last`, file cursor to `file_last`), subtracting the
size and walking on; otherwise advances both the memory and file
cursors of the head by the same `sent` and stops.  In particular, for
sizes [10, 20, 30] and `sent = 25` the first buffer is drained, the
second advances by 15 of 20, the third is untouched, and the second
link is returned; a fully drained chain returns none. -/
theorem chain_update_sent_spec
    (b : NgxBuf) (rest : List NgxBuf) (sent : Int) :
    (ngx_buf_special b = true →
        ngx_chain_update_sent (b :: rest) sent
          = (b :: (ngx_chain_update_sent rest sent).1,
             (ngx_chain_update_sent rest sent).2)) ∧
    (ngx_buf_special b = false →
        ngx_chain_update_sent (b :: rest) 0 = ([], b :: rest)) ∧
    (ngx_buf_special b = false → sent ≠ 0 → ngx_buf_size b ≤ sent →
        ngx_chain_update_sent (b :: rest) sent
          = (drainBuf b :: (ngx_chain_update_sent rest (sent - ngx_buf_size b)).1,
             (ngx_chain_update_sent rest (sent - ngx_buf_size b)).2)) ∧
    (ngx_buf_special b = false → sent ≠ 0 → sent < ngx_buf_size b →
        ngx_chain_update_sent (b :: rest) sent
          = ([], advanceBuf b sent :: rest)) ∧
    ngx_chain_update_sent [memBuf 0 0 10 10 0, memBuf 0 0 20 20 0, memBuf 0 0 30 30 0] 25
      = ([drainBuf (memBuf 0 0 10 10 0)],
         [advanceBuf (memBuf 0 0 20 20 0) 15, memBuf 0 0 30 30 0]) ∧
    ngx_chain_update_sent [memBuf 0 0 10 10 0] 25
      = ([drainBuf (memBuf 0 0 10 10 0)], []) := by
  refine ⟨?_, ?_, ?_, ?_, by decide, by decide⟩
  · intro hs
    rw [ngx_chain_update_sent, if_pos hs]
  · intro hs
    rw [ngx_chain_update_sent, if_neg (by simp [hs]), if_pos rfl]
  · intro hs h0 hge
    rw [ngx_chain_update_sent, if_neg (by simp [hs]), if_neg h0,
        if_pos (ge_iff_le.mpr hge)]
  · intro hs h0 hlt
    rw [ngx_chain_update_sent, if_neg (by simp [hs]), if_neg h0,
        if_neg (not_le.mpr hlt)]

/-- Witness for C3: each branch of the theorem instantiated at a
concrete input — a flush marker is skipped, a stop at `sent = 0`, a
full drain, and a partial advance. -/
theorem chain_update_sent_spec_witness :
    (ngx_chain_update_sent [flushBuf, memBuf 0 0 20 20 0] 5
       = (flushBuf :: (ngx_chain_update_sent [memBuf 0 0 20 20 0] 5).1,
          (ngx_chain_update_sent [memBuf 0 0 20 20 0] 5).2)) ∧
    (ngx_chain_update_sent [memBuf 0 0 20 20 0] 0 = ([], [memBuf 0 0 20 20 0])) ∧
    (ngx_chain_update_sent [memBuf 0 0 20 20 0] 25
       = (drainBuf (memBuf 0 0 20 20 0)
            :: (ngx_chain_update_sent [] (25 - ngx_buf_size (memBuf 0 0 20 20 0))).1,
          (ngx_chain_update_sent [] (25 - ngx_buf_size (memBuf 0 0 20 20 0))).2)) ∧
    (ngx_chain_update_sent [memBuf 0 0 20 20 0] 5
       = ([], advanceBuf (memBuf 0 0 20 20 0) 5 :: [])) :=
  ⟨(chain_update_sent_spec flushBuf [memBuf 0 0 20 20 0] 5).1 (by decide),
   (chain_update_sent_spec (memBuf 0 0 20 20 0) [] 0).2.1 (by decide),
   (chain_update_sent_spec (memBuf 0 0 20 20 0) [] 25).2.2.1 (by decide)
     (by decide) (by decide),
   (chain_update_sent_spec (memBuf 0 0 20 20 0) [] 5).2.2.2.1 (by decide)
     (by decide) (by decide)⟩

lemma coalesceLoop_le (ps limit fd : Int) (hps : 0 < ps) :
    ∀ (l : List NgxBuf) (total : Int), total ≤ limit →
      (coalesceLoop ps limit fd l total).1 ≤ limit + (ps - 1) := by
  intro l
  induction l with
  | nil =>
    intro total h
    simp only [coalesceLoop]
    linarith
  | cons cl rest ih =>
    intro total htot
    rw [coalesceLoop]
    dsimp only
    by_cases h1 : cl.file_last - cl.file_pos > limit - total
    · rw [if_pos h1]
      by_cases h2 : alignMask (cl.file_pos + (limit - total) + ps - 1) ps ≤ cl.file_last
      · rw [if_pos h2]
        have hle := alignMask_le (cl.file_pos + (limit - total) + ps - 1) ps hps
        simp only
        linarith
      · rw [if_neg h2]
        simp only
        linarith
    · rw [if_neg h1]
      cases rest with
      | nil =>
        simp only
        linarith [not_lt.mp h1]
      | cons cl2 rest2 =>
        dsimp only
        by_cases hc : cl2.in_file = true ∧ total + (cl.file_last - cl.file_pos) < limit ∧
            fd = cl2.fd ∧ cl.file_pos + (cl.file_last - cl.file_pos) = cl2.file_pos
        · rw [if_pos hc]
          exact ih _ (by linarith [not_lt.mp h1])
        · rw [if_neg hc]
          simp only
          linarith [not_lt.mp h1]

/-- C2 counterexample: with page size 4096, a single file-backed
buffer over [0, 8192) and limit 100, the code truncates to 100, rounds
the end offset up to the page boundary 4096 (which still lies within
the segment) and returns total 4096, strictly exceeding the limit —
so the end offset is rounded up, the rounded size is used although it
is larger than the truncated one, and the returned total can exceed
the limit. -/
theorem chain_coalesce_file_limit_cx :
    (ngx_chain_coalesce_file 4096 [fileBuf 0 8192 3] 100).1 = 4096 ∧
    100 < (ngx_chain_coalesce_file 4096 [fileBuf 0 8192 3] 100).1 := by
  decide

/-- C2 amended: when the current segment's size would push the total
past the limit, its contribution is truncated to `limit - total` and
the absolute end offset is rounded UP to the nearest page boundary;
the rounded size is used exactly when the rounded end still lies
within the original segment, and it is then at least the truncated
size; consequently the returned total never exceeds
`limit + pagesize - 1` (for a positive page size and non-negative
limit), though it may exceed `limit` itself.  The claim's concrete
example still holds: for ranges [0,100) and [100,250) with limit 150
and page size 4096 the returned total is exactly 150. -/
theorem chain_coalesce_file_rounds_up (ps limit fd total : Int)
    (l : List NgxBuf) (cl : NgxBuf) (rest : List NgxBuf)
    (hps : 0 < ps) (hlim : 0 ≤ limit)
    (htr : cl.file_last - cl.file_pos > limit - total)
    (hal : alignMask (cl.file_pos + (limit - total) + ps - 1) ps ≤ cl.file_last) :
    (ngx_chain_coalesce_file ps l limit).1 ≤ limit + (ps - 1) ∧
    coalesceLoop ps limit fd (cl :: rest) total
      = (total + (alignMask (cl.file_pos + (limit - total) + ps - 1) ps - cl.file_pos),
         cl :: rest) ∧
    limit - total ≤ alignMask (cl.file_pos + (limit - total) + ps - 1) ps - cl.file_pos ∧
    ngx_chain_coalesce_file 4096 [fileBuf 0 100 3, fileBuf 100 250 3] 150
      = (150, [fileBuf 100 250 3]) := by
  refine ⟨?_, ?_, ?_, by decide⟩
  · cases l with
    | nil =>
      simp only [ngx_chain_coalesce_file]
      linarith
    | cons c r => exact coalesceLoop_le ps limit c.fd hps (c :: r) 0 hlim
  · rw [coalesceLoop]
    dsimp only
    rw [if_pos htr, if_pos hal]
  · have := le_alignMask (cl.file_pos + (limit - total) + ps - 1) ps hps
    linarith

/-- Witness for the amended C2: the counterexample input instantiates
the truncation-and-round-up branch, and the claim's two-buffer example
returns exactly 150. -/
theorem chain_coalesce_file_rounds_up_witness :
    (ngx_chain_coalesce_file 4096 [fileBuf 0 8192 3] 100).1 ≤ 100 + (4096 - 1) ∧
    coalesceLoop 4096 100 3 (fileBuf 0 8192 3 :: []) 0
      = (0 + (alignMask ((fileBuf 0 8192 3).file_pos + (100 - 0) + 4096 - 1) 4096
              - (fileBuf 0 8192 3).file_pos), fileBuf 0 8192 3 :: []) ∧
    100 - 0 ≤ alignMask ((fileBuf 0 8192 3).file_pos + (100 - 0) + 4096 - 1) 4096
              - (fileBuf 0 8192 3).file_pos ∧
    ngx_chain_coalesce_file 4096 [fileBuf 0 100 3, fileBuf 100 250 3] 150
      = (150, [fileBuf 100 250 3]) :=
  chain_coalesce_file_rounds_up 4096 100 3 0 [fileBuf 0 8192 3] (fileBuf 0 8192 3) []
    (by decide) (by decide) (by decide) (by decide)

/-- C5: a subsequent link is included in the coalesced span only if it
is file-backed, on the same descriptor, byte-adjacent (its `file_pos`
equals the previous buffer's `file_last`) and the accumulated total is
still strictly below the limit: whenever any of these fails at the
second link, the walk stops with the head's full contribution and the
chain pointer advanced exactly past the head.  For two same-descriptor
buffers [0,100) and [100,250) with limit 1000 the call returns 250 and
advances past both links. -/
theorem chain_coalesce_file_adjacency (ps limit : Int) (b1 b2 : NgxBuf)
    (rest : List NgxBuf)
    (hsz : b1.file_last - b1.file_pos ≤ limit)
    (hstop : ¬ (b2.in_file = true ∧ b1.file_last - b1.file_pos < limit ∧
                b1.fd = b2.fd ∧ b1.file_last = b2.file_pos)) :
    ngx_chain_coalesce_file ps (b1 :: b2 :: rest) limit
      = (b1.file_last - b1.file_pos, b2 :: rest) ∧
    ngx_chain_coalesce_file 4096 [fileBuf 0 100 3, fileBuf 100 250 3] 1000
      = (250, []) := by
  refine ⟨?_, by decide⟩
  rw [ngx_chain_coalesce_file, coalesceLoop]
  dsimp only
  rw [if_neg (by rw [sub_zero]; exact not_lt.mpr hsz), if_neg ?_]
  · rw [zero_add]
  · intro hcond
    exact hstop ⟨hcond.1, by linarith [hcond.2.1], hcond.2.2.1, by linarith [hcond.2.2.2]⟩

/-- Witness for C5: a gap between [0,100) and [150,250) (not
byte-adjacent) stops the coalescing after the head buffer. -/
theorem chain_coalesce_file_adjacency_witness :
    ngx_chain_coalesce_file 4096 [fileBuf 0 100 3, fileBuf 150 250 3] 1000
      = ((fileBuf 0 100 3).file_last - (fileBuf 0 100 3).file_pos,
         [fileBuf 150 250 3]) ∧
    ngx_chain_coalesce_file 4096 [fileBuf 0 100 3, fileBuf 100 250 3] 1000
      = (250, []) :=
  chain_coalesce_file_adjacency 4096 1000 (fileBuf 0 100 3) (fileBuf 150 250 3) []
    (by decide) (by decide)

lemma addCopyLoop_ok (src : List (Option Nat)) :
    ∀ p : LinkPool, (addCopyLoop p src).2.2 = true →
      (addCopyLoop p src).2.1 = src := by
  induction src with
  | nil => intro p _; rfl
  | cons b rest ih =>
    intro p h
    rw [addCopyLoop] at h ⊢
    cases halloc : ngx_alloc_chain_link p with
    | mk o p2 =>
      rw [halloc] at h
      cases o with
      | none => simp at h
      | some cl =>
        dsimp only at h ⊢
        rw [ih p2 h]

lemma addCopyLoop_fail (src : List (Option Nat)) :
    ∀ p : LinkPool, p.chain.length + p.arena.length < src.length →
      addCopyLoop p src
        = (⟨[], []⟩, src.take (p.chain.length + p.arena.length), false) := by
  induction src with
  | nil =>
    intro p h
    exact absurd h (by simp)
  | cons b rest ih =>
    intro p h
    obtain ⟨pc, pa⟩ := p
    cases pc with
    | cons c cs =>
      have hlt : (⟨cs, pa⟩ : LinkPool).chain.length
          + (⟨cs, pa⟩ : LinkPool).arena.length < rest.length := by
        dsimp only at h ⊢
        simp only [List.length_cons] at h
        omega
      rw [addCopyLoop]
      have halloc : ngx_alloc_chain_link ⟨c :: cs, pa⟩ = (some c, ⟨cs, pa⟩) := rfl
      rw [halloc]
      dsimp only
      rw [ih ⟨cs, pa⟩ hlt]
      have hn : (⟨c :: cs, pa⟩ : LinkPool).chain.length
          + (⟨c :: cs, pa⟩ : LinkPool).arena.length
          = ((⟨cs, pa⟩ : LinkPool).chain.length
              + (⟨cs, pa⟩ : LinkPool).arena.length) + 1 := by
        dsimp only
        simp [Nat.add_right_comm]
      rw [hn, List.take_succ_cons]
    | nil =>
      cases pa with
      | cons a as =>
        have hlt : (⟨[], as⟩ : LinkPool).chain.length
            + (⟨[], as⟩ : LinkPool).arena.length < rest.length := by
          dsimp only at h ⊢
          simp only [List.length_cons] at h
          omega
        rw [addCopyLoop]
        have halloc : ngx_alloc_chain_link ⟨[], a :: as⟩ = (some a, ⟨[], as⟩) := rfl
        rw [halloc]
        dsimp only
        rw [ih ⟨[], as⟩ hlt]
        have hn : (⟨[], a :: as⟩ : LinkPool).chain.length
            + (⟨[], a :: as⟩ : LinkPool).arena.length
            = ((⟨[], as⟩ : LinkPool).chain.length
                + (⟨[], as⟩ : LinkPool).arena.length) + 1 := by
          simp
        rw [hn, List.take_succ_cons]
      | nil =>
        rw [addCopyLoop]
        have halloc : ngx_alloc_chain_link ⟨[], []⟩ = (none, ⟨[], []⟩) := rfl
        rw [halloc]
        simp

/-- C6: merge-append with an empty source leaves the destination
chain, the pool and the success flag untouched; a successful
merge-append into an empty destination yields exactly the source's
buffer-reference sequence; and every successful merge-append yields
the destination followed by links referencing the very same buffers
(the same pointer values) as the corresponding source links, the
source itself being unmodified. -/
theorem chain_add_copy_shared (p : LinkPool) (dst src : List (Option Nat)) :
    ngx_chain_add_copy p dst [] = (p, dst, true) ∧
    ((ngx_chain_add_copy p [] src).2.2 = true →
       (ngx_chain_add_copy p [] src).2.1 = src) ∧
    ((ngx_chain_add_copy p dst src).2.2 = true →
       (ngx_chain_add_copy p dst src).2.1 = dst ++ src) := by
  refine ⟨by simp [ngx_chain_add_copy, addCopyLoop], ?_, ?_⟩
  · intro h
    simp only [ngx_chain_add_copy] at h ⊢
    rw [addCopyLoop_ok src p h]
    simp
  · intro h
    simp only [ngx_chain_add_copy] at h ⊢
    rw [addCopyLoop_ok src p h]

/-- Witness for C6: a two-link source appended onto a one-link
destination through a pool holding one recycled and one fresh link
yields the destination followed by the source's buffer pointers. -/
theorem chain_add_copy_shared_witness :
    (ngx_chain_add_copy ⟨[⟨some 5⟩], [⟨none⟩]⟩ [some 1] [some 2, some 3]).2.1
      = [some 1] ++ [some 2, some 3] :=
  (chain_add_copy_shared ⟨[⟨some 5⟩], [⟨none⟩]⟩ [some 1] [some 2, some 3]).2.2
    (by decide)

/-- C7: when the pool cannot supply a link for every source element,
merge-append reports an error and leaves the destination a well-formed
null-terminated chain holding every already-appended link, each still
referencing its source buffer: the destination followed by exactly the
first `n` source buffer pointers, where `n` is the number of links the
pool could supply. -/
theorem chain_add_copy_failure (p : LinkPool) (dst src : List (Option Nat))
    (h : p.chain.length + p.arena.length < src.length) :
    ngx_chain_add_copy p dst src
      = (⟨[], []⟩, dst ++ src.take (p.chain.length + p.arena.length), false) := by
  simp only [ngx_chain_add_copy]
  rw [addCopyLoop_fail src p h]

/-- Witness for C7: a pool with a single free link fails on a
three-link source after appending one link. -/
theorem chain_add_copy_failure_witness :
    ngx_chain_add_copy ⟨[⟨some 5⟩], []⟩ [some 1] [some 2, some 3, some 4]
      = (⟨[], []⟩,
         [some 1] ++ [some 2, some 3, some 4].take
           ((⟨[⟨some 5⟩], []⟩ : LinkPool).chain.length
             + (⟨[⟨some 5⟩], []⟩ : LinkPool).arena.length), false) :=
  chain_add_copy_failure ⟨[⟨some 5⟩], []⟩ [some 1] [some 2, some 3, some 4]
    (by decide)

/-- C8 counterexample: popping the pool-scoped chain-link free list
returns the head link as-is — here a link still referencing buffer 5 —
so the returned link is not an empty link with no buffer assigned (and
the source clears neither `buf` nor `next`). -/
theorem alloc_chain_link_stale_cx :
    (ngx_alloc_chain_link ⟨[⟨some 5⟩], []⟩).1 = some ⟨some 5⟩ ∧
    (⟨some 5⟩ : ChainLink).buf ≠ none := by
  decide

/-- C8 amended: if the pool-scoped chain-link free list is non-empty
the operation pops and returns its head link (the free list becoming
the former second link); otherwise it allocates a fresh link from the
arena, failing only on arena exhaustion, with the pool unchanged.  The
returned link's fields are not cleared: a popped link keeps whatever
buffer reference (and successor) it held, a fresh link holds
uninitialized memory, and callers must set `buf` and `next`
themselves. -/
theorem alloc_chain_link_pop_or_fresh (p : LinkPool) :
    (∀ cl rest, p.chain = cl :: rest →
        ngx_alloc_chain_link p = (some cl, { p with chain := rest })) ∧
    (∀ cl rest, p.chain = [] → p.arena = cl :: rest →
        ngx_alloc_chain_link p = (some cl, { p with arena := rest })) ∧
    (p.chain = [] → p.arena = [] → ngx_alloc_chain_link p = (none, p)) := by
  obtain ⟨pc, pa⟩ := p
  refine ⟨?_, ?_, ?_⟩
  · intro cl rest h
    cases h
    rfl
  · intro cl rest h1 h2
    cases h1
    cases h2
    rfl
  · intro h1 h2
    cases h1
    cases h2
    rfl

/-- Witness for the amended C8: popping a one-link free list returns
that link (buffer reference intact) and leaves the arena alone. -/
theorem alloc_chain_link_pop_or_fresh_witness :
    ngx_alloc_chain_link ⟨[⟨some 5⟩], [⟨none⟩]⟩
      = (some ⟨some 5⟩, ⟨[], [⟨none⟩]⟩) :=
  (alloc_chain_link_pop_or_fresh ⟨[⟨some 5⟩], [⟨none⟩]⟩).1 ⟨some 5⟩ [] rfl

/-- C10: if the `free` chain is non-empty, get-free-buf pops and
returns its head link with the successor cleared (a detached link),
the chain becomes the former second link, the pool is untouched and
the returned link's buffer reference is exactly as stored; if the
`free` chain is empty it returns a link whose buffer is freshly
allocated and zero-initialized and whose successor is null, failing
only on arena exhaustion (no link or no buffer available), in which
case the `free` chain stays empty. -/
theorem chain_get_free_buf_spec (p : BufPool) (free : List BufLink) :
    (∀ cl rest, free = cl :: rest →
        ngx_chain_get_free_buf p free = (some cl, p, rest)) ∧
    (∀ cl p' b p2, free = [] → allocBufLink p = (some cl, p') →
        ngx_calloc_buf p' = (some b, p2) →
        ngx_chain_get_free_buf p free = (some ⟨some b⟩, p2, []) ∧ b = zeroBuf) ∧
    (free = [] → p.chain = [] → p.linkArena = [] →
        ngx_chain_get_free_buf p free = (none, p, [])) ∧
    (∀ cl p', free = [] → allocBufLink p = (some cl, p') → p'.bufArena = 0 →
        ngx_chain_get_free_buf p free = (none, p', [])) := by
  refine ⟨?_, ?_, ?_, ?_⟩
  · intro cl rest h
    subst h
    rfl
  · intro cl p' b p2 hf ha hc
    subst hf
    refine ⟨?_, ?_⟩
    · rw [ngx_chain_get_free_buf, ha]
      dsimp only
      rw [hc]
    · unfold ngx_calloc_buf at hc
      cases hba : p'.bufArena with
      | zero =>
        rw [hba] at hc
        exact absurd hc (by simp)
      | succ n =>
        rw [hba] at hc
        simp only [Prod.mk.injEq, Option.some.injEq] at hc
        exact hc.1.symm
  · intro h1 h2 h3
    subst h1
    obtain ⟨pc, pla, pba⟩ := p
    dsimp only at h2 h3
    subst h2
    subst h3
    rfl
  · intro cl p' hf ha hz
    subst hf
    rw [ngx_chain_get_free_buf, ha]
    dsimp only
    have hcz : ngx_calloc_buf p' = (none, p') := by
      unfold ngx_calloc_buf
      rw [hz]
    rw [hcz]

/-- Witness for C10: popping a stored link returns its buffer exactly
as stored, and with an empty free chain a fresh link carrying the
zero-initialized buffer is produced. -/
theorem chain_get_free_buf_spec_witness :
    ngx_chain_get_free_buf ⟨[], [], 3⟩ [⟨some (memBuf 0 5 5 10 7)⟩]
      = (some ⟨some (memBuf 0 5 5 10 7)⟩, ⟨[], [], 3⟩, []) ∧
    (ngx_chain_get_free_buf (⟨[⟨none⟩], [], 1⟩ : BufPool) []
      = (some ⟨some zeroBuf⟩, ⟨[], [], 0⟩, []) ∧ zeroBuf = zeroBuf) :=
  ⟨(chain_get_free_buf_spec ⟨[], [], 3⟩ [⟨some (memBuf 0 5 5 10 7)⟩]).1
      ⟨some (memBuf 0 5 5 10 7)⟩ [] rfl,
   (chain_get_free_buf_spec (⟨[⟨none⟩], [], 1⟩ : BufPool) []).2.1
      ⟨none⟩ ⟨[], [], 1⟩ zeroBuf ⟨[], [], 0⟩ rfl rfl rfl⟩
lemma getLastD_mem_of_ne_nil {α : Type} (l : List (List α)) (h : l ≠ []) :
    l.getLastD [] ∈ l := by
  rw [List.getLastD_eq_getLast?, List.getLast?_eq_getLast l h]
  simp only [Option.getD_some]
  exact List.getLast_mem h

lemma flatten_dropLast_concat {α : Type} (l : List (List α)) (xs : List α) :
    (l.dropLast ++ [l.getLastD [] ++ xs]).flatten = l.flatten ++ xs := by
  cases hl : l with
  | nil => simp
  | cons q qs =>
    rw [← hl]
    have hne : l ≠ [] := by rw [hl]; simp
    have hgd : l.getLastD [] = l.getLast hne := by
      rw [List.getLastD_eq_getLast?, List.getLast?_eq_getLast l hne]
      simp
    rw [hgd]
    conv_rhs => rw [← List.dropLast_append_getLast hne]
    simp [List.flatten_append]

lemma ngx_list_push_toFlat {α : Type} (l : NgxList α) (x : α) :
    (ngx_list_push l x).toFlat = l.toFlat ++ [x] := by
  unfold ngx_list_push NgxList.toFlat
  by_cases h : (l.parts.getLastD []).length = l.nalloc
  · rw [if_pos h]
    simp [List.flatten_append]
  · rw [if_neg h]
    exact flatten_dropLast_concat l.parts [x]

lemma listInv_init {α : Type} (n : Nat) : listInv n (ngx_list_init α n) := by
  refine ⟨rfl, by simp [ngx_list_init], ?_⟩
  intro q hq
  simp [ngx_list_init] at hq
  simp [hq]

lemma listInv_push {α : Type} (n : Nat) (hn : 0 < n) (l : NgxList α) (x : α)
    (h : listInv n l) : listInv n (ngx_list_push l x) := by
  obtain ⟨hna, hne, hcap⟩ := h
  unfold ngx_list_push
  by_cases hfull : (l.parts.getLastD []).length = l.nalloc
  · rw [if_pos hfull]
    refine ⟨hna, by simp, ?_⟩
    intro q hq
    rw [List.mem_append] at hq
    rcases hq with hq | hq
    · exact hcap q hq
    · simp only [List.mem_singleton] at hq
      subst hq
      simpa using hn
  · rw [if_neg hfull]
    refine ⟨hna, by simp, ?_⟩
    intro q hq
    rw [List.mem_append] at hq
    rcases hq with hq | hq
    · exact hcap q (List.dropLast_subset _ hq)
    · simp only [List.mem_singleton] at hq
      subst hq
      have hmem := getLastD_mem_of_ne_nil l.parts hne
      have hlen := hcap _ hmem
      have hne2 : (l.parts.getLastD []).length ≠ n := by rw [← hna]; exact hfull
      simp only [List.length_append, List.length_singleton]
      omega

lemma listInv_pushAll {α : Type} (n : Nat) (hn : 0 < n) (xs : List α) :
    ∀ l : NgxList α, listInv n l → listInv n (pushAll l xs) := by
  induction xs with
  | nil => intro l h; exact h
  | cons x xs ih =>
    intro l h
    exact ih _ (listInv_push n hn l x h)

lemma pushAll_toFlat {α : Type} (xs : List α) :
    ∀ l : NgxList α, (pushAll l xs).toFlat = l.toFlat ++ xs := by
  induction xs with
  | nil => intro l; simp [pushAll]
  | cons x xs ih =>
    intro l
    show (pushAll (ngx_list_push l x) xs).toFlat = _
    rw [ih, ngx_list_push_toFlat]
    simp

/-- C9: for every list state built by pushes from a freshly
initialized list with positive per-part capacity, every part's
used-count is at most the capacity, the part chain is non-empty and
null-terminated with the tail its last part, and iterating parts in
link order and elements in index order visits exactly the pushed
elements in insertion order; a push with spare tail capacity writes
into the tail's next free slot (used-count incremented by one, part
chain unchanged), a push on a full tail links a new part (used-count
starting at zero) after the tail and advances the tail, and no push
removes or reorders existing elements. -/
theorem list_push_invariants {α : Type} (n : Nat) (xs : List α) (x : α)
    (hn : 0 < n) :
    (∀ q ∈ (pushAll (ngx_list_init α n) xs).parts, q.length ≤ n) ∧
    (pushAll (ngx_list_init α n) xs).parts ≠ [] ∧
    (pushAll (ngx_list_init α n) xs).nalloc = n ∧
    (pushAll (ngx_list_init α n) xs).toFlat = xs ∧
    (∀ l : NgxList α, (l.parts.getLastD []).length < l.nalloc →
        (ngx_list_push l x).parts
          = l.parts.dropLast ++ [l.parts.getLastD [] ++ [x]]) ∧
    (∀ l : NgxList α, (l.parts.getLastD []).length = l.nalloc →
        (ngx_list_push l x).parts = l.parts ++ [[x]]) ∧
    (∀ l : NgxList α, (ngx_list_push l x).toFlat = l.toFlat ++ [x]) := by
  obtain ⟨hna, hne, hcap⟩ :=
    listInv_pushAll n hn xs (ngx_list_init α n) (listInv_init n)
  refine ⟨hcap, hne, hna, ?_, ?_, ?_, fun l => ngx_list_push_toFlat l x⟩
  · rw [pushAll_toFlat]
    simp [NgxList.toFlat, ngx_list_init]
  · intro l hlt
    unfold ngx_list_push
    rw [if_neg (Nat.ne_of_lt hlt)]
  · intro l hfull
    unfold ngx_list_push
    rw [if_pos hfull]

/-- Witness for C9: pushing 1..5 into a capacity-2 list yields parts
[[1,2],[3,4],[5]] flattening back to the pushed sequence; a
spare-capacity push appends in place and a full-tail push opens a new
part. -/
theorem list_push_invariants_witness :
    (∀ q ∈ (pushAll (ngx_list_init Nat 2) [1, 2, 3, 4, 5]).parts, q.length ≤ 2) ∧
    (pushAll (ngx_list_init Nat 2) [1, 2, 3, 4, 5]).toFlat = [1, 2, 3, 4, 5] ∧
    (ngx_list_push (⟨[[5]], 2⟩ : NgxList Nat) 9).parts
      = ([[5]] : List (List Nat)).dropLast ++ [([[5]] : List (List Nat)).getLastD [] ++ [9]] ∧
    (ngx_list_push (⟨[[5, 6]], 2⟩ : NgxList Nat) 9).parts = [[5, 6]] ++ [[9]] :=
  ⟨(list_push_invariants 2 [1, 2, 3, 4, 5] 9 (by decide)).1,
   (list_push_invariants 2 [1, 2, 3, 4, 5] 9 (by decide)).2.2.2.1,
   (list_push_invariants 2 [1, 2, 3, 4, 5] 9 (by decide)).2.2.2.2.1
     ⟨[[5]], 2⟩ (by decide),
   (list_push_invariants 2 [1, 2, 3, 4, 5] 9 (by decide)).2.2.2.2.2.1
     ⟨[[5, 6]], 2⟩ (by decide)⟩
